import Mathlib

/-!
Shallow embedding of the autocompletion engine of
src/modules/cmp/queryEditorPanel/queryEditorPanel.js (lwc-soql-builder).

Strings are modelled as `List Char` (JS string offsets become list
positions).  The component state that the completion engine reads and
writes (`isCompletionVisible`, `completionFields`, `_selectionStart`,
`_sobjectMeta`) is an `EditorState`; a keyboard event together with the
textarea snapshot it carries (`target.value`, `target.selectionStart`,
`target.selectionEnd`) is a `KeyEvent`.  Store dispatches, popup
positioning and the caret-geometry provider are outside the engine and
are not modelled.
-/

namespace LwcSoqlBuilder

/-- A separator character of the completion engine: the character class
`[,. ]` of the regex in `_findSeparator`. -/
def isSeparatorChar (c : Char) : Bool := c == ',' || c == '.' || c == ' '

/-- JS `String.prototype.substring(a, b)`: both offsets are clamped to the
string length and swapped when out of order. -/
def jsSubstring (s : List Char) (a b : Nat) : List Char :=
  (s.take (max (min a s.length) (min b s.length))).drop
    (min (min a s.length) (min b s.length))

/-- JS `String.prototype.substring(a)` with one argument: the suffix from
offset `a` (clamped) to the end. -/
def jsSubstringFrom (s : List Char) (a : Nat) : List Char := s.drop a

/-- `_findSeparator`: the JS code runs `/[,. ][^,. ]*$/g.exec(value)` and
returns `result && result.index + 1`.  The regex matches the last separator
of the string (the one followed by the trailing run of non-separators,
anchored at the end), so the call returns the index of the last separator
plus one, and JS `null` (here `none`) when the string has no separator. -/
def findSeparator : List Char → Option Nat
  | [] => none
  | c :: rest =>
    match findSeparator rest with
    | some n => some (n + 1)
    | none => if isSeparatorChar c then some 1 else none

/-- JS `a || b` applied to the nullable number `_findSeparator` returns
(`_openCompletion` computes `this._findSeparator(...) || target.selectionEnd`):
`null` and `0` are falsy. -/
def jsOrNat (a : Option Nat) (b : Nat) : Nat :=
  match a with
  | some n => if n == 0 then b else n
  | none => b

/-- A field descriptor of the sobject metadata catalog
(`this._sobjectMeta.fields`): `name`, `label`, and a stand-in for any
further metadata the spread `...field` carries through unchanged. -/
structure Fld where
  name : List Char
  label : List Char
  extra : List Char
deriving DecidableEq

/-- An entry of `this.completionFields`: a field decorated with the
display label and the active-selection flag. -/
structure Candidate where
  name : List Char
  label : List Char
  extra : List Char
  itemLabel : List Char
  isActive : Bool
deriving DecidableEq

/-- Case folding modelling the RegExp `'i'` flag. -/
def lowerStr (s : List Char) : List Char := s.map Char.toLower

/-- `pat` occurs as a contiguous run inside the second list. -/
def occursIn (pat : List Char) : List Char → Bool
  | [] => pat.isEmpty
  | c :: rest => pat.isPrefixOf (c :: rest) || occursIn pat rest

/-- Modelled from the spec: `escapeRegExp` is imported from
`src/modules/base/utils/regexp-utils`, a file that is not under src/.  Per
the spec (§4.3), the keyword is escaped so that
`new RegExp(escapedKeyword, 'i').test(hay)` tests for the keyword as
literal text, case-insensitively; the escape-compile-test pipeline of
`_searchCompletionFields` is therefore case-insensitive substring
containment. -/
def matchesKeyword (keyword hay : List Char) : Bool :=
  occursIn (lowerStr keyword) (lowerStr hay)

/-- `List.map` handing the element's index to the function, the index of
the first element being `n` (models the index argument of JS
`Array.prototype.map`). -/
def mapIdxFrom (f : Nat → α → β) (n : Nat) : List α → List β
  | [] => []
  | a :: as => f n a :: mapIdxFrom f (n + 1) as

/-- JS `Array.prototype.map` with the callback's index argument. -/
def jsMapIdx (f : Nat → α → β) (l : List α) : List β := mapIdxFrom f 0 l

/-- The `.map((field, index) => ...)` step of `_searchCompletionFields`:
spread the field, add `itemLabel` and set `isActive` at index 0 only. -/
def decorateField (index : Nat) (f : Fld) : Candidate :=
  { name := f.name, label := f.label, extra := f.extra,
    itemLabel := f.name ++ " / ".toList ++ f.label,
    isActive := index == 0 }

/-- The filter-and-decorate pipeline of `_searchCompletionFields`: keep
the fields whose `` `${field.name} ${field.label}` `` matches the keyword
pattern, then decorate each with its index in the filtered list. -/
def filterCandidates (keyword : List Char) (catalog : List Fld) : List Candidate :=
  jsMapIdx decorateField
    (catalog.filter fun f => matchesKeyword keyword (f.name ++ " ".toList ++ f.label))

/-- JS `Array.prototype.findIndex` before its `-1` encoding: `some` of the
first index satisfying `p`. -/
def findIdxAux (p : Candidate → Bool) : List Candidate → Option Nat
  | [] => none
  | c :: rest => if p c then some 0 else (findIdxAux p rest).map (· + 1)

/-- `_getActiveFieldIndex`: `findIndex(field => field.isActive)`, which is
`-1` when no candidate is active. -/
def getActiveFieldIndex (l : List Candidate) : Int :=
  match findIdxAux (fun c => c.isActive) l with
  | some i => (i : Int)
  | none => -1

/-- `_selectBellowField`, list part: when `activeIndex + 1 <
completionFields.length`, remap every candidate with
`isActive: index === activeIndex + 1`; otherwise leave the list alone. -/
def selectBellowField (l : List Candidate) : List Candidate :=
  if getActiveFieldIndex l + 1 < (l.length : Int) then
    jsMapIdx (fun index c =>
      { c with isActive := ((index : Int) == getActiveFieldIndex l + 1) }) l
  else l

/-- `_selectAboveField`, list part: when `activeIndex > 0`, remap every
candidate with `isActive: index === activeIndex - 1`; otherwise leave the
list alone. -/
def selectAboveField (l : List Candidate) : List Candidate :=
  if 0 < getActiveFieldIndex l then
    jsMapIdx (fun index c =>
      { c with isActive := ((index : Int) == getActiveFieldIndex l - 1) }) l
  else l

/-- Modelled from the spec: `stripNamespace` is imported from
`src/modules/service/salesforce`, a file that is not under src/.
Glossary, Namespace Stripping: removing a package-namespace prefix
(format `prefix__Name`) from an identifier; spec §8 scenario:
`ns__Field__c` is inserted as `Field__c`.  Helper: the remainder of the
list after the first `__`, when one occurs. -/
def dropThroughNamespaceSep : List Char → Option (List Char)
  | [] => none
  | '_' :: '_' :: rest => some rest
  | _ :: rest => dropThroughNamespaceSep rest

/-- Modelled from the spec (see `dropThroughNamespaceSep`): strip the
leading `prefix__` of a namespaced identifier, and leave an identifier
with no `__` unchanged. -/
def stripNamespace (name : List Char) : List Char :=
  match dropThroughNamespaceSep name with
  | some rest => rest
  | none => name

/-- What `_insertField` produces: the new editor text, the caret offset
passed to `setSelectionRange`, and the visibility after the forced
`_closeCompletion`. -/
structure InsertResult where
  text : List Char
  caret : Nat
  visibleAfter : Bool
deriving DecidableEq

/-- `_insertField(textarea, selectedField)`: when a field is selected,
splice `stripNamespace(field.name)` between `text[0:_selectionStart]` and
`text[textarea.selectionStart:]`, put the caret right after the inserted
name, and close; when no field is selected, leave text and caret alone
but still close. -/
def insertField (text : List Char) (selectionStart caret : Nat) (field : Option Fld) :
    InsertResult :=
  match field with
  | some f =>
    { text := jsSubstring text 0 selectionStart
        ++ stripNamespace f.name ++ jsSubstringFrom text caret,
      caret := selectionStart + (stripNamespace f.name).length,
      visibleAfter := false }
  | none => { text := text, caret := caret, visibleAfter := false }

/-- A keyboard event with the textarea snapshot it carries. -/
structure KeyEvent where
  key : List Char
  altKey : Bool
  ctrlKey : Bool
  metaKey : Bool
  isComposing : Bool
  value : List Char
  selStart : Nat
  selEnd : Nat
deriving DecidableEq

/-- The component state the completion engine reads and writes. -/
structure EditorState where
  isCompletionVisible : Bool
  completionFields : List Candidate
  selectionStart : Nat
  sobjectMeta : Option (List Fld)
deriving DecidableEq

/-- `_canOpenCompletion`. -/
def canOpenCompletion (e : KeyEvent) : Bool :=
  (e.ctrlKey && e.key == " ".toList) ||
  (e.key.length == 1 &&
    !(e.key == " ".toList || e.key == ",".toList || e.key == ".".toList) &&
    !e.altKey && !e.ctrlKey && !e.metaKey && !e.isComposing) ||
  (e.isComposing && e.key == "Enter".toList)

/-- `_closeCompletion`. -/
def closeCompletion (st : EditorState) : EditorState :=
  { st with isCompletionVisible := false }

/-- The keyword window of `_searchCompletionFields`:
`target.value.substring(this._selectionStart, target.selectionEnd)`. -/
def completionKeyword (st : EditorState) (e : KeyEvent) : List Char :=
  jsSubstring e.value st.selectionStart e.selEnd

/-- `_searchCompletionFields`: filter and decorate the catalog by the
keyword window, then show the list exactly when it is non-empty.  When
`_sobjectMeta` is still undefined the JS code throws on
`this._sobjectMeta.fields` before assigning anything, leaving the state
unchanged. -/
def searchCompletionFields (st : EditorState) (e : KeyEvent) : EditorState :=
  match st.sobjectMeta with
  | none => st
  | some catalog =>
    { st with
      completionFields := filterCandidates (completionKeyword st e) catalog,
      isCompletionVisible :=
        decide (0 < (filterCandidates (completionKeyword st e) catalog).length) }

/-- The `_selectionStart` assignment of `_openCompletion`. -/
def withBoundary (st : EditorState) (e : KeyEvent) : EditorState :=
  { st with selectionStart :=
      jsOrNat (findSeparator (jsSubstring e.value 0 e.selEnd)) e.selEnd }

/-- `_openCompletion`: recompute the boundary, then search when the
keystroke qualifies. -/
def openCompletion (st : EditorState) (e : KeyEvent) : EditorState :=
  if canOpenCompletion e then searchCompletionFields (withBoundary st e) e
  else withBoundary st e

/-- `_deleteKeyword`: recompute the candidates, then close when the caret
has come back to the session's boundary. -/
def deleteKeyword (st : EditorState) (e : KeyEvent) : EditorState :=
  if (searchCompletionFields st e).selectionStart == e.selStart then
    closeCompletion (searchCompletionFields st e)
  else searchCompletionFields st e

/-- The modifier check opening `_handleCompletion`: `_closeCompletion()`
runs when alt, ctrl or meta is held, and — the JS has no early return
there — the keystroke then still falls through to the key switch. -/
def modifierClose (st : EditorState) (e : KeyEvent) : EditorState :=
  if e.altKey || e.ctrlKey || e.metaKey then closeCompletion st else st

/-- `_handleCompletion`: the key switch run on every keyup while the
completion is visible, after the modifier check. -/
def handleCompletion (st : EditorState) (e : KeyEvent) : EditorState :=
  if e.key == ".".toList || e.key == ",".toList || e.key == " ".toList ||
      e.key == "Escape".toList || e.key == "ArrowLeft".toList ||
      e.key == "ArrowRight".toList then
    closeCompletion (modifierClose st e)
  else if e.key == "Backspace".toList then
    deleteKeyword (modifierClose st e) e
  else if e.key == "ArrowDown".toList || e.key == "ArrowUp".toList ||
      e.key == "Enter".toList then
    (if e.isComposing then searchCompletionFields (modifierClose st e) e
     else modifierClose st e)
  else
    searchCompletionFields (modifierClose st e) e

/-- `handleKeyupSoql`, completion part (the `updateSoql` dispatch goes to
the external store): nothing happens while the metadata catalog is
missing; otherwise open when closed, update when open. -/
def handleKeyupSoql (st : EditorState) (e : KeyEvent) : EditorState :=
  match st.sobjectMeta with
  | none => st
  | some _ =>
    if st.isCompletionVisible then handleCompletion st e
    else openCompletion st e

/-- `handleKeydownSoql`: while the completion is visible, ArrowDown and
ArrowUp move the active flag, Enter inserts the active candidate (whose
`_insertField` closes the completion; its text and caret go to the
textarea and store, see `insertField`); while hidden, a composing Enter
reopens. -/
def handleKeydownSoql (st : EditorState) (e : KeyEvent) : EditorState :=
  if st.isCompletionVisible then
    if e.isComposing then st
    else if e.key == "ArrowDown".toList then
      { st with completionFields := selectBellowField st.completionFields }
    else if e.key == "ArrowUp".toList then
      { st with completionFields := selectAboveField st.completionFields }
    else if e.key == "Enter".toList then
      closeCompletion st
    else st
  else
    if e.isComposing && e.key == "Enter".toList then openCompletion st e
    else st

/-- The events the component receives: keyup and keydown on the textarea,
the (debounced) blur close, and a pointer selection of a candidate
(`insertField(event)`, which always ends in `_closeCompletion`). -/
inductive Ev where
  | keyup (e : KeyEvent)
  | keydown (e : KeyEvent)
  | blur
  | choose (name : List Char)
deriving DecidableEq

/-- One event of the component's event loop. -/
def step (st : EditorState) : Ev → EditorState
  | Ev.keyup e => handleKeyupSoql st e
  | Ev.keydown e => handleKeydownSoql st e
  | Ev.blur => closeCompletion st
  | Ev.choose _ => closeCompletion st

/-- A whole event sequence. -/
def run (st : EditorState) (evs : List Ev) : EditorState := evs.foldl step st

/-- The component's initial state: completion hidden, no candidates, and
whatever metadata (possibly none) the store has supplied. -/
def initState (meta : Option (List Fld)) : EditorState :=
  { isCompletionVisible := false, completionFields := [],
    selectionStart := 0, sobjectMeta := meta }

/-- The candidate `filterCandidates` would build from a field, with a
chosen active flag (used for concrete states below). -/
def candidateOn (f : Fld) (b : Bool) : Candidate :=
  { name := f.name, label := f.label, extra := f.extra,
    itemLabel := f.name ++ " / ".toList ++ f.label, isActive := b }

/-- The `Name` field of the spec's scenarios. -/
def nameFld : Fld := { name := "Name".toList, label := "Name".toList, extra := [] }

/-- The `Id` field of the spec's scenarios. -/
def idFld : Fld := { name := "Id".toList, label := "Record ID".toList, extra := [] }

/-- A namespaced custom field, as in the spec's insertion scenario. -/
def nsFld : Fld := { name := "ns__Field__c".toList, label := "Field".toList, extra := [] }

/-- The editor text of the spec's boundary scenario. -/
def demoText : List Char := "SELECT Na FROM Account".toList

/-- A two-candidate list whose active flag sits at index 0. -/
def demoPairFirst : List Candidate := [candidateOn nameFld true, candidateOn idFld false]

/-- A two-candidate list whose active flag sits at the last index. -/
def demoPairLast : List Candidate := [candidateOn nameFld false, candidateOn idFld true]

/-- An open completion session over the catalog `[nameFld]`: boundary 7 of
`SELECT Na`, one candidate shown. -/
def demoOpenState : EditorState :=
  { isCompletionVisible := true, completionFields := [candidateOn nameFld true],
    selectionStart := 7, sobjectMeta := some [nameFld] }

/-- A `ctrl`-modified ordinary keystroke arriving while the session is
open: caret at 9 of `SELECT Na`, key `a`, ctrl held. -/
def ctrlKeyEvent : KeyEvent :=
  { key := "a".toList, altKey := false, ctrlKey := true, metaKey := false,
    isComposing := false, value := "SELECT Na".toList, selStart := 9, selEnd := 9 }

/-- An unmodified Escape keystroke with the same textarea snapshot. -/
def escapeKeyEvent : KeyEvent :=
  { key := "Escape".toList, altKey := false, ctrlKey := false, metaKey := false,
    isComposing := false, value := "SELECT Na".toList, selStart := 9, selEnd := 9 }

/-- A Backspace keystroke whose caret (10) is away from the session
boundary (7) while the keyword window `xyz` matches nothing. -/
def backspaceFarEvent : KeyEvent :=
  { key := "Backspace".toList, altKey := false, ctrlKey := false, metaKey := false,
    isComposing := false, value := "SELECT xyz".toList, selStart := 10, selEnd := 10 }

/-- A Backspace keystroke whose caret (9) is away from the boundary (7)
and whose keyword window `Na` still matches `Name`. -/
def backspaceNearEvent : KeyEvent :=
  { key := "Backspace".toList, altKey := false, ctrlKey := false, metaKey := false,
    isComposing := false, value := "SELECT Na".toList, selStart := 9, selEnd := 9 }

/-- Typing `N` as the first character: the keystroke that opens a session
from the initial state. -/
def typeNEvent : KeyEvent :=
  { key := "N".toList, altKey := false, ctrlKey := false, metaKey := false,
    isComposing := false, value := "N".toList, selStart := 1, selEnd := 1 }

/-- The underlying field of a candidate (drops the decoration). -/
def toFld (c : Candidate) : Fld :=
  { name := c.name, label := c.label, extra := c.extra }

/-- A candidate with its active flag blanked (what `Next`/`Prev` may not
change). -/
def eraseActive (c : Candidate) : Candidate := { c with isActive := false }

/-- The isActive column a fresh candidate list must show: `true` at index
0, `false` at every later index. -/
def activeFlags : Nat → List Bool
  | 0 => []
  | k + 1 => true :: List.replicate k false

/-!  Helper lemmas. -/

lemma take_min (s : List α) (b : Nat) : s.take (min b s.length) = s.take b := by
  rcases Nat.le_total b s.length with h | h
  · rw [Nat.min_eq_left h]
  · rw [Nat.min_eq_right h, List.take_length, List.take_of_length_le h]

lemma jsSubstring_zero (s : List Char) (b : Nat) : jsSubstring s 0 b = s.take b := by
  unfold jsSubstring
  simp only [Nat.zero_min, Nat.zero_max, List.drop_zero]
  exact take_min s b

lemma mapIdxFrom_length (f : Nat → α → β) (n : Nat) (l : List α) :
    (mapIdxFrom f n l).length = l.length := by
  induction l generalizing n with
  | nil => rfl
  | cons a as ih => simp [mapIdxFrom, ih]

lemma mapIdxFrom_map {γ : Type} (g : β → γ) (h : α → γ) (f : Nat → α → β)
    (hgf : ∀ n a, g (f n a) = h a) (n : Nat) (l : List α) :
    (mapIdxFrom f n l).map g = l.map h := by
  induction l generalizing n with
  | nil => rfl
  | cons a as ih => simp [mapIdxFrom, hgf, ih]

lemma intNatBeq (a b : Nat) : ((a : Int) == (b : Int)) = (a == b) := by
  by_cases h : a = b
  · subst h; simp
  · simp [h, Int.natCast_inj]

lemma findSeparator_eq_none_iff (s : List Char) :
    findSeparator s = none ↔ ∀ c ∈ s, isSeparatorChar c = false := by
  induction s with
  | nil => simp [findSeparator]
  | cons c rest ih =>
    cases hr : findSeparator rest with
    | some m =>
      simp only [findSeparator, hr]
      constructor
      · intro h; exact absurd h (by simp)
      · intro h
        have h0 : findSeparator rest = none :=
          ih.mpr fun d hd => h d (List.mem_cons_of_mem c hd)
        rw [h0] at hr; exact absurd hr (by simp)
    | none =>
      rcases hc : isSeparatorChar c with _ | _
      · simp only [findSeparator, hr, hc, Bool.false_eq_true, if_false]
        constructor
        · intro _ d hd
          rcases List.mem_cons.mp hd with rfl | hd
          · exact hc
          · exact (ih.mp hr) d hd
        · intro _; trivial
      · simp only [findSeparator, hr, hc, if_true]
        constructor
        · intro h; exact absurd h (by simp)
        · intro h
          have h1 := h c (List.mem_cons_self c rest)
          rw [hc] at h1; exact absurd h1 (by simp)

lemma findSeparator_append (l r : List Char) (c : Char)
    (hc : isSeparatorChar c = true) (hr : ∀ d ∈ r, isSeparatorChar d = false) :
    findSeparator (l ++ c :: r) = some (l.length + 1) := by
  induction l with
  | nil =>
    have h0 : findSeparator r = none := (findSeparator_eq_none_iff r).mpr hr
    simp [findSeparator, h0, hc]
  | cons x l ih =>
    show findSeparator (x :: (l ++ c :: r)) = some ((x :: l).length + 1)
    simp [findSeparator, ih]

lemma findSeparator_some_elim (s : List Char) (n : Nat) (h : findSeparator s = some n) :
    ∃ l c r, s = l ++ c :: r ∧ isSeparatorChar c = true ∧
      (∀ d ∈ r, isSeparatorChar d = false) ∧ n = l.length + 1 := by
  induction s generalizing n with
  | nil => exact absurd h (by simp [findSeparator])
  | cons x rest ih =>
    cases hr : findSeparator rest with
    | some m =>
      rw [findSeparator, hr] at h
      obtain rfl : m + 1 = n := by simpa using h
      obtain ⟨l, c, r, hs, hc, hnon, hm⟩ := ih m hr
      exact ⟨x :: l, c, r, by simp [hs], hc, hnon, by simp [hm]⟩
    | none =>
      rw [findSeparator, hr] at h
      rcases hx : isSeparatorChar x with _ | _
      · rw [hx] at h
        simp at h
      · rw [hx] at h
        simp only [if_true] at h
        obtain rfl : 1 = n := by simpa using h
        exact ⟨[], x, rest, rfl, hx, (findSeparator_eq_none_iff rest).mp hr, rfl⟩

lemma occursIn_nil (hay : List Char) : occursIn [] hay = true := by
  induction hay with
  | nil => rfl
  | cons c rest ih => simp [occursIn, ih, List.isPrefixOf]

lemma matchesKeyword_nil (hay : List Char) : matchesKeyword [] hay = true := by
  unfold matchesKeyword lowerStr
  simp only [List.map_nil]
  exact occursIn_nil _

lemma mapIdx_decorate_isActive_succ (l : List Fld) (n : Nat) :
    (mapIdxFrom decorateField (n + 1) l).map (fun c => c.isActive)
      = List.replicate l.length false := by
  induction l generalizing n with
  | nil => rfl
  | cons a as ih => simp [mapIdxFrom, decorateField, ih, List.replicate_succ]

lemma filterCandidates_isActive (kw : List Char) (cat : List Fld) :
    (filterCandidates kw cat).map (fun c => c.isActive)
      = activeFlags (filterCandidates kw cat).length := by
  unfold filterCandidates jsMapIdx
  generalize (cat.filter fun f => matchesKeyword kw (f.name ++ " ".toList ++ f.label)) = l
  cases l with
  | nil => rfl
  | cons a as =>
    simp [mapIdxFrom, decorateField, activeFlags, mapIdxFrom_length,
      mapIdx_decorate_isActive_succ]

lemma findIdxAux_eq_none_iff (p : Candidate → Bool) (l : List Candidate) :
    findIdxAux p l = none ↔ l.countP p = 0 := by
  induction l with
  | nil => simp [findIdxAux]
  | cons c rest ih =>
    rcases hc : p c with _ | _
    · simp [findIdxAux, hc, List.countP_cons, ih, Option.map_eq_none']
    · simp [findIdxAux, hc, List.countP_cons]

lemma findIdxAux_some_lt (p : Candidate → Bool) (l : List Candidate) (i : Nat)
    (h : findIdxAux p l = some i) : i < l.length := by
  induction l generalizing i with
  | nil => exact absurd h (by simp [findIdxAux])
  | cons c rest ih =>
    rcases hc : p c with _ | _
    · rw [findIdxAux, hc] at h
      simp only [Bool.false_eq_true, if_false, Option.map_eq_some'] at h
      obtain ⟨j, hj, rfl⟩ := h
      have := ih j hj
      simp; omega
    · rw [findIdxAux, hc] at h
      simp only [if_true, Option.some_inj] at h
      subst h; simp

lemma countP_mapIdx_eq (j : Nat) (n : Nat) (l : List Candidate) :
    (mapIdxFrom (fun index c => { c with isActive := index == j }) n l).countP
        (fun c => c.isActive)
      = if n ≤ j ∧ j < n + l.length then 1 else 0 := by
  induction l generalizing n with
  | nil =>
    simp only [List.length_nil, Nat.add_zero, mapIdxFrom]
    rw [if_neg (by omega)]
    rfl
  | cons a as ih =>
    simp only [mapIdxFrom, List.countP_cons, ih, List.length_cons]
    by_cases h : n = j
    · subst h
      simp only [beq_self_eq_true, if_true]
      rw [if_neg (by omega), if_pos (by omega : n ≤ n ∧ n < n + (as.length + 1))]
    · have hbeq : (n == j) = false := by simp [h]
      simp only [hbeq, Bool.false_eq_true, if_false, Nat.add_zero]
      by_cases h2 : n ≤ j ∧ j < n + (as.length + 1)
      · rw [if_pos (by omega : n + 1 ≤ j ∧ j < n + 1 + as.length), if_pos h2]
      · rw [if_neg (by omega : ¬(n + 1 ≤ j ∧ j < n + 1 + as.length)), if_neg h2]

/-!  The claims. -/

/-- C1: for every text, boundary offset `b` (a position of the text),
caret selection-start `s` and present candidate, the splice inserter
produces `text[0:b] ++ strippedName ++ text[s:]`, places the caret at
`b + strippedName.length`, and the prefix of the result up to the caret is
exactly `text[0:b] ++ strippedName` — the caret lands at the end of the
inserted token, never inside the suffix. -/
theorem c1_insertField_splice (text : List Char) (b s : Nat) (f : Fld)
    (hb : b ≤ text.length) :
    (insertField text b s (some f)).text
        = text.take b ++ stripNamespace f.name ++ text.drop s
    ∧ (insertField text b s (some f)).caret = b + (stripNamespace f.name).length
    ∧ (insertField text b s (some f)).text.take (b + (stripNamespace f.name).length)
        = text.take b ++ stripNamespace f.name := by
  have htext : (insertField text b s (some f)).text
      = text.take b ++ stripNamespace f.name ++ text.drop s := by
    show jsSubstring text 0 b ++ stripNamespace f.name ++ jsSubstringFrom text s
        = text.take b ++ stripNamespace f.name ++ text.drop s
    rw [jsSubstring_zero]
    rfl
  refine ⟨htext, rfl, ?_⟩
  rw [htext]
  have hlen : (text.take b).length = b := by
    rw [List.length_take]; omega
  rw [List.append_assoc,
    show b + (stripNamespace f.name).length
        = (text.take b).length + (stripNamespace f.name).length by rw [hlen],
    List.take_append, List.take_left]

/-- C1 witness: the splice at boundary 7, caret 9 of
`SELECT Na FROM Account` with candidate `ns__Field__c`. -/
theorem c1_insertField_splice_witness :
    (insertField demoText 7 9 (some nsFld)).text
        = demoText.take 7 ++ stripNamespace nsFld.name ++ demoText.drop 9
    ∧ (insertField demoText 7 9 (some nsFld)).caret
        = 7 + (stripNamespace nsFld.name).length
    ∧ (insertField demoText 7 9 (some nsFld)).text.take
          (7 + (stripNamespace nsFld.name).length)
        = demoText.take 7 ++ stripNamespace nsFld.name :=
  c1_insertField_splice demoText 7 9 nsFld (by decide)

/-- C3: `findSeparator` returns `none` exactly when the text has no
separator, and returns `some n` exactly when `n - 1` is the position of
the last separator of the text (the one the trailing all-non-separator
run follows); on `SELECT Na` (text before a caret at offset 9 of
`SELECT Na FROM Account`) it returns 7. -/
theorem c3_findSeparator_boundary :
    (∀ s : List Char,
      (findSeparator s = none ↔ ∀ c ∈ s, isSeparatorChar c = false)
      ∧ ∀ n : Nat, findSeparator s = some n ↔
          ∃ l c r, s = l ++ c :: r ∧ isSeparatorChar c = true
            ∧ (∀ d ∈ r, isSeparatorChar d = false) ∧ n = l.length + 1)
    ∧ findSeparator ("SELECT Na".toList) = some 7 := by
  refine ⟨fun s => ⟨findSeparator_eq_none_iff s, fun n => ⟨?_, ?_⟩⟩, by decide⟩
  · intro h
    exact findSeparator_some_elim s n h
  · rintro ⟨l, c, r, rfl, hc, hr, rfl⟩
    exact findSeparator_append l r c hc hr

/-- C8: the splice inserter run with no candidate leaves text and caret
unchanged and still reports the completion closed (the embedding is a
total function: no exception). -/
theorem c8_insertField_noCandidate (text : List Char) (b s : Nat) :
    (insertField text b s none).text = text
    ∧ (insertField text b s none).caret = s
    ∧ (insertField text b s none).visibleAfter = false :=
  ⟨rfl, rfl, rfl⟩

/-- C4: the candidate filter keeps exactly the catalog entries whose
`"name label"` concatenation contains the (literal, case-insensitive)
keyword, in catalog order; its isActive column is `true` at index 0 and
`false` everywhere else; and with the empty keyword every catalog entry
comes back in catalog order. -/
theorem c4_filterCandidates_spec (kw : List Char) (catalog : List Fld) :
    ((filterCandidates kw catalog).map toFld
        = catalog.filter fun f => matchesKeyword kw (f.name ++ " ".toList ++ f.label))
    ∧ ((filterCandidates kw catalog).map (fun c => c.isActive)
        = activeFlags (filterCandidates kw catalog).length)
    ∧ (filterCandidates [] catalog).map toFld = catalog := by
  refine ⟨?_, filterCandidates_isActive kw catalog, ?_⟩
  · unfold filterCandidates jsMapIdx
    rw [mapIdxFrom_map toFld id decorateField (fun n f => rfl) 0]
    exact List.map_id _
  · unfold filterCandidates jsMapIdx
    rw [mapIdxFrom_map toFld id decorateField (fun n f => rfl) 0, List.map_id]
    exact List.filter_eq_self.mpr fun f _ => matchesKeyword_nil _

/-- C5: `Next` and `Prev` keep the exactly-one-active invariant: from a
list whose isActive count is 1 (hence non-empty), both operations yield a
list whose isActive count is again 1. -/
theorem c5_selection_invariant (l : List Candidate)
    (h : l.countP (fun c => c.isActive) = 1) :
    (selectBellowField l).countP (fun c => c.isActive) = 1
    ∧ (selectAboveField l).countP (fun c => c.isActive) = 1 := by
  obtain ⟨i, hi⟩ : ∃ i, findIdxAux (fun c => c.isActive) l = some i := by
    cases hfi : findIdxAux (fun c => c.isActive) l with
    | none => rw [findIdxAux_eq_none_iff] at hfi; omega
    | some i => exact ⟨i, rfl⟩
  have hil : i < l.length := findIdxAux_some_lt _ _ _ hi
  have hga : getActiveFieldIndex l = (i : Int) := by
    simp [getActiveFieldIndex, hi]
  constructor
  · rw [selectBellowField, hga]
    by_cases hlt : (i : Int) + 1 < (l.length : Int)
    · rw [if_pos hlt]
      have hfun : (fun (index : Nat) (c : Candidate) =>
            { c with isActive := ((index : Int) == (i : Int) + 1) })
          = fun index c => { c with isActive := index == (i + 1) } := by
        funext index c
        have hcast : ((i : Int) + 1) = ((i + 1 : Nat) : Int) := by omega
        rw [hcast, intNatBeq]
      rw [hfun]
      unfold jsMapIdx
      rw [countP_mapIdx_eq, if_pos (by omega : 0 ≤ i + 1 ∧ i + 1 < 0 + l.length)]
    · rw [if_neg hlt]; exact h
  · rw [selectAboveField, hga]
    by_cases hlt : (0 : Int) < (i : Int)
    · rw [if_pos hlt]
      have hipos : 0 < i := by exact_mod_cast hlt
      have hfun : (fun (index : Nat) (c : Candidate) =>
            { c with isActive := ((index : Int) == (i : Int) - 1) })
          = fun index c => { c with isActive := index == (i - 1) } := by
        funext index c
        have hcast : ((i : Int) - 1) = ((i - 1 : Nat) : Int) := by omega
        rw [hcast, intNatBeq]
      rw [hfun]
      unfold jsMapIdx
      rw [countP_mapIdx_eq, if_pos (by omega : 0 ≤ i - 1 ∧ i - 1 < 0 + l.length)]
    · rw [if_neg hlt]; exact h

/-- C5 witness: the invariant at the concrete two-candidate list with the
active flag at index 0. -/
theorem c5_selection_invariant_witness :
    (selectBellowField demoPairFirst).countP (fun c => c.isActive) = 1
    ∧ (selectAboveField demoPairFirst).countP (fun c => c.isActive) = 1 :=
  c5_selection_invariant demoPairFirst (by decide)

/-- C6: `Next` at the last index and `Prev` at index 0 are no-ops (the
active index read by `findIndex` being the last, respectively the first,
position). -/
theorem c6_selection_noWrap (l : List Candidate) :
    (findIdxAux (fun c => c.isActive) l = some (l.length - 1)
      → selectBellowField l = l)
    ∧ (findIdxAux (fun c => c.isActive) l = some 0
      → selectAboveField l = l) := by
  constructor
  · intro h
    have hlt := findIdxAux_some_lt _ _ _ h
    rw [selectBellowField,
      show getActiveFieldIndex l = ((l.length - 1 : Nat) : Int) by
        simp [getActiveFieldIndex, h]]
    rw [if_neg (by omega)]
  · intro h
    rw [selectAboveField,
      show getActiveFieldIndex l = ((0 : Nat) : Int) by
        simp [getActiveFieldIndex, h]]
    rw [if_neg (by omega)]

/-- C6 witness: `Next` on the pair whose active flag is last, and `Prev`
on the pair whose active flag is first, both leave the list unchanged. -/
theorem c6_selection_noWrap_witness :
    selectBellowField demoPairLast = demoPairLast
    ∧ selectAboveField demoPairFirst = demoPairFirst :=
  ⟨(c6_selection_noWrap demoPairLast).1 (by decide),
   (c6_selection_noWrap demoPairFirst).2 (by decide)⟩

/-- C10: `Next` and `Prev` change at most the isActive flags: blanking
that flag on the result gives the original list with its flag blanked
(same length, same order, every other field of every candidate equal). -/
theorem c10_selection_frame (l : List Candidate) :
    ((selectBellowField l).map eraseActive = l.map eraseActive
      ∧ (selectBellowField l).length = l.length)
    ∧ ((selectAboveField l).map eraseActive = l.map eraseActive
      ∧ (selectAboveField l).length = l.length) := by
  constructor
  · unfold selectBellowField
    split
    · exact ⟨mapIdxFrom_map eraseActive eraseActive
          (fun index c =>
            { c with isActive := ((index : Int) == getActiveFieldIndex l + 1) })
          (fun n c => rfl) 0 l,
        mapIdxFrom_length _ 0 l⟩
    · exact ⟨rfl, rfl⟩
  · unfold selectAboveField
    split
    · exact ⟨mapIdxFrom_map eraseActive eraseActive
          (fun index c =>
            { c with isActive := ((index : Int) == getActiveFieldIndex l - 1) })
          (fun n c => rfl) 0 l,
        mapIdxFrom_length _ 0 l⟩
    · exact ⟨rfl, rfl⟩

lemma handleKeyupSoql_visible (st : EditorState) (e : KeyEvent) (m : List Fld)
    (hm : st.sobjectMeta = some m) (hv : st.isCompletionVisible = true) :
    handleKeyupSoql st e = handleCompletion st e := by
  unfold handleKeyupSoql
  rw [hm, hv]
  rfl

lemma searchCompletionFields_close_some (st : EditorState) (e : KeyEvent) (m : List Fld)
    (hm : st.sobjectMeta = some m) :
    searchCompletionFields (closeCompletion st) e = searchCompletionFields st e := by
  have h2 : (closeCompletion st).sobjectMeta = some m := hm
  unfold searchCompletionFields
  rw [h2, hm]
  rfl

lemma deleteKeyword_close_some (st : EditorState) (e : KeyEvent) (m : List Fld)
    (hm : st.sobjectMeta = some m) :
    deleteKeyword (closeCompletion st) e = deleteKeyword st e := by
  unfold deleteKeyword
  rw [searchCompletionFields_close_some st e m hm]

lemma deleteKeyword_modifierClose (st : EditorState) (e : KeyEvent) (m : List Fld)
    (hm : st.sobjectMeta = some m) :
    deleteKeyword (modifierClose st e) e = deleteKeyword st e := by
  unfold modifierClose
  split
  · exact deleteKeyword_close_some st e m hm
  · rfl

lemma searchCompletionFields_some (st : EditorState) (e : KeyEvent) (m : List Fld)
    (hm : st.sobjectMeta = some m) :
    searchCompletionFields st e
      = { st with
          completionFields := filterCandidates (completionKeyword st e) m,
          isCompletionVisible :=
            decide (0 < (filterCandidates (completionKeyword st e) m).length) } := by
  unfold searchCompletionFields
  rw [hm]

/-- The one-open-candidate invariant the spec states for the component:
whenever the completion is visible, the candidate list is non-empty. -/
def CompletionInv (st : EditorState) : Prop :=
  st.isCompletionVisible = true → st.completionFields ≠ []

lemma selectBellowField_length (l : List Candidate) :
    (selectBellowField l).length = l.length := by
  unfold selectBellowField
  split
  · exact mapIdxFrom_length _ 0 l
  · rfl

lemma selectAboveField_length (l : List Candidate) :
    (selectAboveField l).length = l.length := by
  unfold selectAboveField
  split
  · exact mapIdxFrom_length _ 0 l
  · rfl

lemma inv_close (st : EditorState) : CompletionInv (closeCompletion st) := by
  intro h
  exact absurd h (by simp [closeCompletion])

lemma inv_search (st : EditorState) (e : KeyEvent) (h : CompletionInv st) :
    CompletionInv (searchCompletionFields st e) := by
  unfold searchCompletionFields
  cases hm : st.sobjectMeta with
  | none => exact h
  | some catalog =>
    intro hv
    have hlen : 0 < (filterCandidates (completionKeyword st e) catalog).length := by
      simpa using hv
    exact List.ne_nil_of_length_pos hlen

lemma inv_withBoundary (st : EditorState) (e : KeyEvent) (h : CompletionInv st) :
    CompletionInv (withBoundary st e) :=
  fun hv => h hv

lemma inv_open (st : EditorState) (e : KeyEvent) (h : CompletionInv st) :
    CompletionInv (openCompletion st e) := by
  unfold openCompletion
  split
  · exact inv_search _ _ (inv_withBoundary st e h)
  · exact inv_withBoundary st e h

lemma inv_modifierClose (st : EditorState) (e : KeyEvent) (h : CompletionInv st) :
    CompletionInv (modifierClose st e) := by
  unfold modifierClose
  split
  · exact inv_close st
  · exact h

lemma inv_deleteKeyword (st : EditorState) (e : KeyEvent) (h : CompletionInv st) :
    CompletionInv (deleteKeyword st e) := by
  unfold deleteKeyword
  split
  · exact inv_close _
  · exact inv_search _ _ h

lemma inv_handleCompletion (st : EditorState) (e : KeyEvent) (h : CompletionInv st) :
    CompletionInv (handleCompletion st e) := by
  unfold handleCompletion
  split
  · exact inv_close _
  · split
    · exact inv_deleteKeyword _ _ (inv_modifierClose st e h)
    · split
      · split
        · exact inv_search _ _ (inv_modifierClose st e h)
        · exact inv_modifierClose st e h
      · exact inv_search _ _ (inv_modifierClose st e h)

lemma inv_handleKeyup (st : EditorState) (e : KeyEvent) (h : CompletionInv st) :
    CompletionInv (handleKeyupSoql st e) := by
  unfold handleKeyupSoql
  cases hm : st.sobjectMeta with
  | none => exact h
  | some _ =>
    show CompletionInv
      (if st.isCompletionVisible = true then handleCompletion st e
       else openCompletion st e)
    split
    · exact inv_handleCompletion st e h
    · exact inv_open st e h

lemma inv_handleKeydown (st : EditorState) (e : KeyEvent) (h : CompletionInv st) :
    CompletionInv (handleKeydownSoql st e) := by
  unfold handleKeydownSoql
  split
  · split
    · exact h
    · split
      · intro hv
        apply List.ne_nil_of_length_pos
        rw [selectBellowField_length]
        exact List.length_pos.mpr (h hv)
      · split
        · intro hv
          apply List.ne_nil_of_length_pos
          rw [selectAboveField_length]
          exact List.length_pos.mpr (h hv)
        · split
          · exact inv_close st
          · exact h
  · split
    · exact inv_open st e h
    · exact h

lemma inv_step (st : EditorState) (ev : Ev) (h : CompletionInv st) :
    CompletionInv (step st ev) := by
  cases ev with
  | keyup e => exact inv_handleKeyup st e h
  | keydown e => exact inv_handleKeydown st e h
  | blur => exact inv_close st
  | choose _ => exact inv_close st

lemma inv_run (st : EditorState) (evs : List Ev) (h : CompletionInv st) :
    CompletionInv (run st evs) := by
  induction evs generalizing st with
  | nil => exact h
  | cons ev evs ih => exact ih (step st ev) (inv_step st ev h)

/-- C2 counterexample: the claim fails as stated.  In the concrete open
session `demoOpenState` (boundary 7 of `SELECT Na`, catalog `[nameFld]`),
the ctrl-modified keyup `ctrlKeyEvent` (key `a`) ends with the completion
still Open: `_handleCompletion` has no early return after the modifier
close, falls through to the default branch, and
`_searchCompletionFields` reopens on the non-empty refiltered list. -/
theorem c2_modifierClose_counterexample :
    demoOpenState.isCompletionVisible = true
    ∧ ctrlKeyEvent.ctrlKey = true
    ∧ (step demoOpenState (Ev.keyup ctrlKeyEvent)).isCompletionVisible = true := by
  refine ⟨rfl, rfl, ?_⟩
  decide

/-- C2 amended: while the session is open (metadata present), a keyup
whose key is period, comma, space, Escape, ArrowLeft or ArrowRight always
leaves the completion Closed, and so does a modifier-held keyup whose key
is ArrowDown, ArrowUp or Enter outside composition; the modifier-combo
disjunct of the original claim holds only transiently for the remaining
keys, because processing falls through to the key switch, which may
reopen the list. -/
theorem c2_keyClose_amended (st : EditorState) (e : KeyEvent) (m : List Fld)
    (hm : st.sobjectMeta = some m) (hv : st.isCompletionVisible = true)
    (hk : (e.key = ".".toList ∨ e.key = ",".toList ∨ e.key = " ".toList
        ∨ e.key = "Escape".toList ∨ e.key = "ArrowLeft".toList
        ∨ e.key = "ArrowRight".toList)
      ∨ ((e.altKey || e.ctrlKey || e.metaKey) = true ∧ e.isComposing = false
        ∧ (e.key = "ArrowDown".toList ∨ e.key = "ArrowUp".toList
          ∨ e.key = "Enter".toList))) :
    (step st (Ev.keyup e)).isCompletionVisible = false := by
  have hstep : step st (Ev.keyup e) = handleCompletion st e :=
    handleKeyupSoql_visible st e m hm hv
  rw [hstep]
  unfold handleCompletion
  rcases hk with hset | ⟨hmod, hcomp, harr⟩
  · rcases hset with h | h | h | h | h | h <;> rw [h, if_pos (by decide)] <;> rfl
  · have hclose : modifierClose st e = closeCompletion st := by
      unfold modifierClose
      rw [hmod, if_pos rfl]
    rcases harr with h | h | h <;>
      rw [h, if_neg (by decide), if_neg (by decide), if_pos (by decide), hcomp,
        if_neg (by decide), hclose] <;> rfl

/-- C2 witness: Escape pressed in the open session `demoOpenState` closes
it. -/
theorem c2_keyClose_amended_witness :
    (step demoOpenState (Ev.keyup escapeKeyEvent)).isCompletionVisible = false :=
  c2_keyClose_amended demoOpenState escapeKeyEvent [nameFld] rfl rfl (by decide)

/-- C7 counterexample: the claim fails as stated.  In the open session
`demoOpenState`, the Backspace keyup `backspaceFarEvent` has its caret
(10) away from the boundary (7), yet the completion ends Closed — the
claim says it stays Open — because the refreshed keyword window `xyz`
matches no field and `_searchCompletionFields` hides an empty list. -/
theorem c7_backspace_counterexample :
    demoOpenState.isCompletionVisible = true
    ∧ (backspaceFarEvent.selStart == demoOpenState.selectionStart) = false
    ∧ (step demoOpenState (Ev.keyup backspaceFarEvent)).isCompletionVisible = false := by
  refine ⟨rfl, rfl, ?_⟩
  decide

/-- C7 amended: a Backspace keyup while the session is open recomputes
the candidates at the session's boundary (which is kept); the state ends
Open exactly when the refreshed list is non-empty and the caret has not
come back to the boundary — in particular it becomes Closed when the
caret equals the boundary, but also when the refreshed list is empty. -/
theorem c7_backspace_amended (st : EditorState) (e : KeyEvent) (m : List Fld)
    (hm : st.sobjectMeta = some m) (hv : st.isCompletionVisible = true)
    (hk : e.key = "Backspace".toList) :
    (step st (Ev.keyup e)).completionFields
        = filterCandidates (completionKeyword st e) m
    ∧ (step st (Ev.keyup e)).selectionStart = st.selectionStart
    ∧ (step st (Ev.keyup e)).isCompletionVisible
        = (decide (0 < (filterCandidates (completionKeyword st e) m).length)
            && !(st.selectionStart == e.selStart)) := by
  have hstep : step st (Ev.keyup e) = handleCompletion st e :=
    handleKeyupSoql_visible st e m hm hv
  have hhc : handleCompletion st e = deleteKeyword st e := by
    unfold handleCompletion
    rw [hk, if_neg (by decide), if_pos (by decide)]
    exact deleteKeyword_modifierClose st e m hm
  rw [hstep, hhc]
  unfold deleteKeyword
  rw [searchCompletionFields_some st e m hm]
  rcases hcond : (st.selectionStart == e.selStart) with _ | _ <;>
    simp [hcond, closeCompletion]

/-- C7 witness: Backspace at caret 9 (boundary 7) with keyword window
`Na` keeps the session open on the refreshed singleton list. -/
theorem c7_backspace_amended_witness :
    (step demoOpenState (Ev.keyup backspaceNearEvent)).completionFields
        = filterCandidates (completionKeyword demoOpenState backspaceNearEvent) [nameFld]
    ∧ (step demoOpenState (Ev.keyup backspaceNearEvent)).selectionStart
        = demoOpenState.selectionStart
    ∧ (step demoOpenState (Ev.keyup backspaceNearEvent)).isCompletionVisible
        = (decide (0 < (filterCandidates
              (completionKeyword demoOpenState backspaceNearEvent) [nameFld]).length)
            && !(demoOpenState.selectionStart == backspaceNearEvent.selStart)) :=
  c7_backspace_amended demoOpenState backspaceNearEvent [nameFld] rfl rfl rfl

/-- C9: in every state reachable from the initial Closed state by any
sequence of keyup, keydown, blur and pointer-selection events, a visible
completion has a non-empty candidate list. -/
theorem c9_open_nonempty (meta : Option (List Fld)) (evs : List Ev)
    (hv : (run (initState meta) evs).isCompletionVisible = true) :
    (run (initState meta) evs).completionFields ≠ [] :=
  inv_run (initState meta) evs (fun h => nomatch h) hv

/-- C9 witness: after typing `N` over the catalog `[nameFld]` the
completion is open and its candidate list is non-empty. -/
theorem c9_open_nonempty_witness :
    (run (initState (some [nameFld])) [Ev.keyup typeNEvent]).completionFields ≠ [] :=
  c9_open_nonempty (some [nameFld]) [Ev.keyup typeNEvent] (by decide)

end LwcSoqlBuilder
